import Mathlib

/-!
Verification of the NoticiasDotCom hybrid deduplication & synthesis pipeline.

This file gives a shallow embedding, in Lean 4, of the two core services of the
repository:

* `services/deduplication_service.py` — BM25/embedding hybrid similarity and
  average-linkage hierarchical grouping (`DeduplicationService`);
* `services/article_synthesis_service.py` — bounded-concurrency group
  synthesis (`ArticleSynthesisService`);

and proves (or refutes) the specified properties of those services.

Modelling conventions:

* Real-valued numerical work is embedded over `ℚ`.  The Euclidean row norm
  used by `sklearn.metrics.pairwise.cosine_similarity` involves a square
  root, which is irrational, so it is abstracted as an explicit `norm`
  parameter; every theorem below holds for an arbitrary `norm`.
* External collaborators (the OpenAI embedding endpoint, the chat-completion
  endpoint, and the sklearn `TfidfVectorizer`) are modelled as oracle fields
  of the service structures.  Failure of the generative call (a raised
  exception) is modelled with `Except`.
* Python dicts are modelled as association lists in insertion order; where a
  theorem needs the keys of a dict to be distinct (which holds for every
  Python dict) this appears as a `Nodup` hypothesis.
* Matrices are total functions `Nat → Nat → ℚ` together with the length of
  the document list; entries outside the square keep the fill value of the
  corresponding `numpy` construction.
* Leading underscores of private Python method names are dropped (Lean
  reserves the `_` prefix for holes); otherwise source names are kept.
-/

namespace Noticias

/-! ## Deduplication service: data and helper functions -/

/-- `urllib.parse.urlparse(url).netloc` for the common `scheme://host/path`
shape produced by the scraper: the substring following the first `//`, up to
the first `/`, `?` or `#`.  (Standard-library routine used at
`deduplication_service.py:137`.) -/
def urlNetloc (url : String) : String :=
  match url.splitOn "//" with
  | _ :: after :: _ => String.mk (after.toList.takeWhile fun c => c ≠ '/' ∧ c ≠ '?' ∧ c ≠ '#')
  | _ => ""

/-- The hard-coded set of "problematic" (ambiguous) domains,
`deduplication_service.py:140`. -/
def problematic_domains : List String := ["boadilladigital.es", "soydemadrid.com"]

/-- The index pairs `(i, j)` with `i < j < n`, in the order enumerated by the
loops `for i in range(n): for j in range(i + 1, n)`. -/
def upperPairs (n : Nat) : List (Nat × Nat) :=
  (List.range n).flatMap fun i => ((List.range n).filter fun j => i < j).map fun j => (i, j)

/-- The guard of the adaptive-weight loop
(`deduplication_service.py:147`): `domains[i] == domains[j] and domains[i] in
problematic_domains` for the pair `p = (i, j)`. -/
def sameProblematic (domains : List String) (p : Nat × Nat) : Prop :=
  domains.getD p.1 "" = domains.getD p.2 "" ∧ domains.getD p.1 "" ∈ problematic_domains

instance (domains : List String) (p : Nat × Nat) : Decidable (sameProblematic domains p) := by
  unfold sameProblematic
  infer_instance

/-- Whether the cell `(a, b)` is one of the two entries written by the loop
body for the pair `p` (`adaptive_weights[i, j]` and `adaptive_weights[j, i]`,
lines 149–150). -/
def pairHits (a b : Nat) (p : Nat × Nat) : Prop :=
  (a = p.1 ∧ b = p.2) ∨ (a = p.2 ∧ b = p.1)

instance (a b : Nat) (p : Nat × Nat) : Decidable (pairHits a b p) := by
  unfold pairHits
  infer_instance

/-- One iteration of the adaptive-weight loop body
(`deduplication_service.py:145`–`150`): if the two endpoints of the pair share
a problematic domain, both symmetric entries of the weight matrix are raised
to `0.6`. -/
def weightStep (domains : List String) (W : Nat → Nat → ℚ) (p : Nat × Nat) : Nat → Nat → ℚ :=
  if sameProblematic domains p then
    fun a b => if pairHits a b p then 3/5 else W a b
  else W

/-- `adaptive_weights = np.full((n, n), self.bm25_weight)` followed by the
double loop raising same-problematic-domain entries to `0.6`
(`deduplication_service.py:143`–`150`). -/
def adaptiveWeights (bm25_weight : ℚ) (domains : List String) : Nat → Nat → ℚ :=
  (upperPairs domains.length).foldl (weightStep domains) fun _ _ => bm25_weight

/-- The cell-by-cell hybrid combination loop (`deduplication_service.py:156`–`159`):
`hybrid[i, j] = w * bm25[i, j] + (1 - w) * semantic[i, j]` with
`w = adaptive_weights[i, j]`. -/
def hybridCombine (W L S : Nat → Nat → ℚ) (i j : Nat) : ℚ :=
  W i j * L i j + (1 - W i j) * S i j

/-- Dot product of two rows. -/
def dotList (x y : List ℚ) : ℚ := (List.zipWith (· * ·) x y).sum

/-- `sklearn.metrics.pairwise.cosine_similarity`, entry `(i, j)`:
`⟨xᵢ, xⱼ⟩ / (‖xᵢ‖ · ‖xⱼ‖)` over the given rows.  The Euclidean norm `‖·‖`
is a square root and hence irrational, so it enters as the abstract
parameter `norm`; all theorems about this definition hold for every `norm`. -/
def cosineSim (norm : List ℚ → ℚ) (rows : List (List ℚ)) (i j : Nat) : ℚ :=
  dotList (rows.getD i []) (rows.getD j []) / (norm (rows.getD i []) * norm (rows.getD j []))

/-- `DeduplicationService._preprocess_text`: lower-case, then replace every
character that is neither a word character nor whitespace by a space
(`re.sub(r'[^\w\s]', ' ', text)`). -/
def preprocess_text (text : String) : String :=
  String.map (fun c => if c.isAlphanum ∨ c = '_' ∨ c.isWhitespace then c else ' ') text.toLower

/-! ## Average-linkage hierarchical clustering (scipy `linkage` / `fcluster`) -/

/-- An active cluster during agglomeration: its member leaf indices and the
largest merge height in its history (scipy's `max_dists`). -/
structure ActiveCluster where
  members : List Nat
  maxh : ℚ
deriving Repr, DecidableEq

/-- One recorded merge of the linkage: a representative leaf of either side,
the merge height, and the maximum height over the merged subtree. -/
structure MergeStep where
  repA : Nat
  repB : Nat
  height : ℚ
  maxh : ℚ
deriving Repr, DecidableEq

/-- Unweighted average-linkage (UPGMA) distance between two clusters: the mean
of the pairwise base distances.  (scipy's `method='average'` recurrence
`d(A∪B, C) = (|A|·d(A,C) + |B|·d(B,C)) / (|A|+|B|)` computes exactly this
quantity.) -/
def avgDist (d : Nat → Nat → ℚ) (A B : List Nat) : ℚ :=
  ((A.map fun a => (B.map fun b => d a b).sum).sum) / ((A.length : ℚ) * (B.length : ℚ))

/-- The pair of positions (into the active-cluster list) realising the minimal
average-linkage distance, first such pair in scan order.  Tie order is
implementation-defined in the source as well (spec §4.4); no theorem below
depends on it. -/
def minPair (d : Nat → Nat → ℚ) (cs : List ActiveCluster) : Nat × Nat :=
  (upperPairs cs.length).foldl
    (fun best p =>
      if avgDist d (cs.getD p.1 ⟨[], 0⟩).members (cs.getD p.2 ⟨[], 0⟩).members <
          avgDist d (cs.getD best.1 ⟨[], 0⟩).members (cs.getD best.2 ⟨[], 0⟩).members
      then p else best)
    (0, 1)

/-- Agglomeration loop of `scipy.cluster.hierarchy.linkage(·, method='average')`:
repeatedly merge the two closest active clusters, recording each merge.  The
fuel argument bounds the number of merges (`n - 1` merges happen for `n`
points; fuel `n` suffices). -/
def linkageAux (d : Nat → Nat → ℚ) : Nat → List ActiveCluster → List MergeStep → List MergeStep
  | 0, _, acc => acc.reverse
  | fuel + 1, cs, acc =>
    if cs.length < 2 then acc.reverse
    else
      let p := minPair d cs
      let A := cs.getD p.1 ⟨[], 0⟩
      let B := cs.getD p.2 ⟨[], 0⟩
      let h := avgDist d A.members B.members
      let m := max h (max A.maxh B.maxh)
      linkageAux d fuel ((cs.eraseIdx p.2).eraseIdx p.1 ++ [⟨A.members ++ B.members, m⟩])
        (⟨A.members.headD 0, B.members.headD 0, h, m⟩ :: acc)

/-- `scipy.cluster.hierarchy.linkage(squareform(D), method='average')` on `n`
points with pairwise distances `d`. -/
def linkage (d : Nat → Nat → ℚ) (n : Nat) : List MergeStep :=
  linkageAux d n ((List.range n).map fun i => ⟨[i], 0⟩) []

/-- Union of the flat clusters containing the representatives `a` and `b`,
with the partition represented as a representative-choosing map. -/
def mergeReps (p : Nat → Nat) (a b : Nat) : Nat → Nat :=
  fun x => if p x = p b then p a else p x

/-- `scipy.cluster.hierarchy.fcluster(Z, t, criterion='distance')`: a merge
node of the dendrogram is applied exactly when the maximum merge height of
its subtree is `≤ t` (scipy's `cluster_monocrit` over `max_dists`); the
resulting flat partition is computed by folding the applied merges into a
leaf-labelling map. -/
def cutPart (steps : List MergeStep) (t : ℚ) : Nat → Nat :=
  steps.foldl (fun p s => if s.maxh ≤ t then mergeReps p s.repA s.repB else p) id

/-- The distinct cluster labels in order of first appearance — the iteration
order of the Python dict `clusters` built at `deduplication_service.py:182`–`186`. -/
def labelKeys (labels : List Nat) : List Nat :=
  labels.foldl (fun ks l => if l ∈ ks then ks else ks ++ [l]) []

/-- The member URLs of the cluster labelled `k`, in input order. -/
def groupFor (labels : List Nat) (urls : List String) (k : Nat) : List String :=
  (labels.zip urls).filterMap fun lu => if lu.1 = k then some lu.2 else none

/-- `groups = list(clusters.values())` (`deduplication_service.py:182`–`188`):
the URLs grouped by cluster label, groups ordered by first appearance of the
label, members in input order. -/
def groupsOfLabels (labels : List Nat) (urls : List String) : List (List String) :=
  (labelKeys labels).map (groupFor labels urls)

/-- Lines 165–188 of `DeduplicationService.group_similar_articles`: distance
conversion `1 - H` with forced zero diagonal and clipping to `[0, 2]`,
average-linkage clustering, dendrogram cut at distance `1 - τ`, and grouping
of the URLs by flat-cluster label. -/
def clusterStage (hybrid : Nat → Nat → ℚ) (τ : ℚ) (urls : List String) : List (List String) :=
  let n := urls.length
  let dist := fun i j => if i = j then 0 else min 2 (max 0 (1 - hybrid i j))
  let steps := linkage dist n
  let part := cutPart steps (1 - τ)
  groupsOfLabels ((List.range n).map part) urls

/-! ## The deduplication service -/

/-- `DeduplicationService.__init__` (`deduplication_service.py:23`–`43`).  The
numeric defaults are those of the constructor signature
(`similarity_threshold: float = 0.85`, `bm25_weight: float = 0.3`); the three
oracle fields model the external collaborators (OpenAI embedding endpoint,
sklearn `TfidfVectorizer(...).fit_transform`, Euclidean row norm of
`cosine_similarity`).  The constructor also demands an API key, raising
`ValueError` otherwise; key handling is outside the model. -/
structure DeduplicationService where
  similarity_threshold : ℚ := 17/20
  bm25_weight : ℚ := 3/10
  embed : List String → List (List ℚ)
  tfidf : List String → List (List ℚ)
  norm : List ℚ → ℚ

/-- `DeduplicationService._compute_bm25_similarity`: TF-IDF vectors of the
preprocessed texts, then cosine similarity. -/
def DeduplicationService.compute_bm25_similarity (svc : DeduplicationService)
    (texts : List String) : Nat → Nat → ℚ :=
  cosineSim svc.norm (svc.tfidf (texts.map preprocess_text))

/-- `DeduplicationService._get_openai_embeddings`: each text truncated to its
first 8000 characters, then one batched call to the embedding endpoint.  The
second component counts the external batch calls issued (always exactly one;
the source has no retry logic, and a raised error propagates to the caller). -/
def DeduplicationService.get_openai_embeddings (svc : DeduplicationService)
    (texts : List String) : List (List ℚ) × Nat :=
  (svc.embed (texts.map fun t => t.take 8000), 1)

/-- `semantic_similarity = cosine_similarity(embeddings)`
(`deduplication_service.py:127`–`128`). -/
def DeduplicationService.semanticMatrix (svc : DeduplicationService)
    (contents : List String) : Nat → Nat → ℚ :=
  cosineSim svc.norm (svc.get_openai_embeddings contents).1

/-- The hybrid similarity matrix of a run (`deduplication_service.py:134`–`159`):
adaptive weights from the URL domains, then the weighted blend of the BM25 and
semantic matrices. -/
def DeduplicationService.hybridMatrix (svc : DeduplicationService)
    (urls contents : List String) : Nat → Nat → ℚ :=
  hybridCombine (adaptiveWeights svc.bm25_weight (urls.map urlNetloc))
    (svc.compute_bm25_similarity contents) (svc.semanticMatrix contents)

/-- Result of one grouping run: the groups plus instrumentation counting the
external embedding batch calls and the clustering computations performed. -/
structure GroupingRun where
  groups : List (List String)
  embedCalls : Nat
  clusterRuns : Nat
deriving Repr, DecidableEq

/-- `DeduplicationService.group_similar_articles`
(`deduplication_service.py:99`–`221`).  Input: the dict `{url: content}` as an
association list in insertion order.  Empty dict → `[]`; no entry with
non-empty content → one singleton group per key; exactly one entry with
content → a single singleton group of that URL (all other keys dropped);
otherwise embeddings, BM25, adaptive hybrid blend, and the clustering stage
over the valid URLs. -/
def DeduplicationService.group_similar_articles (svc : DeduplicationService)
    (url_contents : List (String × String)) : GroupingRun :=
  if url_contents.isEmpty then ⟨[], 0, 0⟩
  else
    match url_contents.filter (fun p => p.2 != "") with
    | [] => ⟨url_contents.map fun p => [p.1], 0, 0⟩
    | [p] => ⟨[[p.1]], 0, 0⟩
    | p1 :: p2 :: rest =>
      let valid_pairs := p1 :: p2 :: rest
      let urls := valid_pairs.map Prod.fst
      let contents := valid_pairs.map Prod.snd
      ⟨clusterStage (svc.hybridMatrix urls contents) svc.similarity_threshold urls,
        (svc.get_openai_embeddings contents).2, 1⟩

/-! ## Article synthesis service -/

/-- The `{title, content, summary}` dict returned by
`synthesize_article_async` / the parsing helpers. -/
structure ArticleParts where
  title : String
  content : String
  summary : String
deriving Repr, DecidableEq

/-- The per-group record assembled by `_synthesize_group_async`: the parsed
article plus `group_size` and `source_urls`. -/
structure SynthesizedArticle where
  title : String
  content : String
  summary : String
  group_size : Nat
  source_urls : List String
deriving Repr, DecidableEq

/-- `ArticleSynthesisService.__init__` (`article_synthesis_service.py:18`–`22`).
`gen attempt prompt` models one attempt of the external chat-completion call
(`async_client.chat.completions.create` with the fixed system instruction,
followed by `response.choices[0].message.content`); `.error` models a raised
exception.  The attempt index lets theorems speak about hypothetical
retries; the source always performs the single attempt `0`.
`max_concurrent` is the semaphore capacity (default 10); it bounds in-flight
calls and affects timing only, never the value of any result. -/
structure ArticleSynthesisService where
  gen : Nat → String → Except String String
  max_concurrent : Nat := 10

/-- `url_to_content.get(url, dflt)` on the dict modelled as an association
list. -/
def dictGet (d : List (String × String)) (k dflt : String) : String :=
  match d.find? fun p => p.1 == k with
  | some p => p.2
  | none => dflt

/-- `url in url_to_content`. -/
def dictContains (d : List (String × String)) (k : String) : Bool :=
  (d.find? fun p => p.1 == k).isSome

/-- Python `s.split(sep, 2)`: split on at most the first two occurrences of
`sep`. -/
def pySplitMax2 (s sep : String) : List String :=
  match s.splitOn sep with
  | a :: b :: c :: rest => [a, b, String.intercalate sep (c :: rest)]
  | parts => parts

/-- `ArticleSynthesisService._build_synthesis_prompt`
(`article_synthesis_service.py:85`–`123`): the labelled, `---`-delimited
source texts followed by the fixed instruction contract. -/
def build_synthesis_prompt (articles_content : List String) : String :=
  let sources_text := String.intercalate "\n\n---\n\n"
    (articles_content.enum.map fun ic => "**FUENTE " ++ toString (ic.1 + 1) ++ ":**\n" ++ ic.2)
  "Tienes " ++ toString articles_content.length ++
  " artículos de diferentes fuentes que hablan sobre el mismo tema.\n\n" ++ sources_text ++
  "\n\n---\n\nTu tarea es crear UN artículo unificado que:\n1. Tenga un título claro y descriptivo\n2. Incluya TODA la información relevante de todas las fuentes\n3. Esté bien estructurado con secciones si es necesario\n4. Sea fácil de leer y comprensible\n5. Mantenga todos los datos importantes (fechas, nombres, cifras, etc)\n\nFormato de salida (IMPORTANTE - usa exactamente este formato):\n\n# [TÍTULO DEL ARTÍCULO]\n\n## [Subtítulo 1]\n\n[Contenido del subtítulo 1]\n\n## [Subtítulo 2]\n\n[Contenido del subtítulo 2]\n\n## Conclusión\n\n[Conclusión del artículo]\n\n---\n\nRecuerda: combina la información sin inventar nada nuevo. Si hay contradicciones entre fuentes, menciónalas."

/-- `ArticleSynthesisService._extract_from_single_article`
(`article_synthesis_service.py:125`–`140`): the first stripped line longer
than 10 characters, with `Título:` and `#` markers removed, becomes the
title (stored truncated to 200 characters); the content is the original
text; the summary is the untruncated title. -/
def extract_from_single_article (content : String) : ArticleParts :=
  let lines := content.splitOn "\n"
  let title :=
    match lines.find? fun l => (l.trim != "") && decide (10 < l.trim.length) with
    | some l => (((l.trim).replace "Título:" "").replace "#" "").trim
    | none => "Artículo"
  { title := title.take 200, content := content, summary := title }

/-- `ArticleSynthesisService._parse_generated_article`
(`article_synthesis_service.py:142`–`166`): the first stripped line that
starts with `#` but not `##` yields the title (markers removed, truncated to
200) and everything after it the content; the first line containing a
`**Resumen:**` / `**Summary:**` marker yields the summary (last part of
`line.split('**', 2)`, stripped, truncated to 300), defaulting to the
title. -/
def parse_generated_article (article_text : String) : ArticleParts :=
  let lines := article_text.splitOn "\n"
  let tc :=
    match lines.findIdx? fun l => (l.trim.startsWith "#") && !(l.trim.startsWith "##") with
    | some i =>
      ((((lines.getD i "").trim.replace "#" "").trim,
        (String.intercalate "\n" (lines.drop (i + 1))).trim))
    | none => ("Artículo Sintetizado", article_text)
  let summary :=
    match lines.find? fun l =>
        decide (1 < (l.splitOn "**Resumen:**").length) ||
        decide (1 < (l.splitOn "**Summary:**").length) with
    | some l => ((pySplitMax2 l "**").getLastD "").trim
    | none => ""
  { title := tc.1.take 200, content := tc.2,
    summary := if summary != "" then summary.take 300 else tc.1.take 200 }

/-- `ArticleSynthesisService.synthesize_article_async`
(`article_synthesis_service.py:24`–`83`).  Empty input → the fixed
`Sin contenido` record; a single article → local extraction; two or more →
one external generation attempt whose failure is caught and turned into the
degraded error record.  The second component counts the external generation
attempts made. -/
def ArticleSynthesisService.synthesize_article_async (svc : ArticleSynthesisService)
    (articles_content : List String) : ArticleParts × Nat :=
  match articles_content with
  | [] => ({ title := "Sin contenido", content := "No se pudo generar el artículo.",
             summary := "" }, 0)
  | [c] => (extract_from_single_article c, 0)
  | _ =>
    match svc.gen 0 (build_synthesis_prompt articles_content) with
    | Except.ok article_text => (parse_generated_article article_text, 1)
    | Except.error e =>
      ({ title := "Error al generar artículo",
         content := "No se pudo generar el artículo: " ++ e, summary := "" }, 1)

/-- `ArticleSynthesisService._synthesize_group_async`
(`article_synthesis_service.py:168`–`197`).  Multi-URL groups collect the
non-empty contents of their member URLs and synthesize them; singleton
groups extract locally; a group none of whose members has content yields
`None` (here `none`).  On an empty group the source raises `IndexError` at
`group[0]`; the grouping stage never emits an empty group, and the theorems
below assume groups are non-empty. -/
def ArticleSynthesisService.synthesize_group_async (svc : ArticleSynthesisService)
    (group : List String) (url_to_content : List (String × String)) :
    Option SynthesizedArticle × Nat :=
  if 1 < group.length then
    let articles_content :=
      ((group.filter fun url => dictContains url_to_content url).map
        fun url => dictGet url_to_content url "").filter fun c => c != ""
    match articles_content with
    | [] => (none, 0)
    | c :: cs =>
      let ac := svc.synthesize_article_async (c :: cs)
      (some { title := ac.1.title, content := ac.1.content, summary := ac.1.summary,
              group_size := group.length, source_urls := group }, ac.2)
  else
    match group with
    | [] => (none, 0)
    | url :: _ =>
      let content := dictGet url_to_content url ""
      if content != "" then
        let article := extract_from_single_article content
        (some { title := article.title, content := article.content,
                summary := article.summary, group_size := 1, source_urls := group }, 0)
      else (none, 0)

/-- `ArticleSynthesisService.synthesize_all_groups_async`
(`article_synthesis_service.py:199`–`240`): every group is synthesized by its
own task; `asyncio.gather` collects one result per task in submission order
(the semaphore bounds in-flight calls but does not change any value);
`None` results are then filtered out.  First component: the surviving
records; second: the total number of external generation attempts of the
run. -/
def ArticleSynthesisService.synthesize_all_groups_async (svc : ArticleSynthesisService)
    (groups : List (List String)) (url_to_content : List (String × String)) :
    List SynthesizedArticle × Nat :=
  let results := groups.map fun g => svc.synthesize_group_async g url_to_content
  (results.filterMap Prod.fst, (results.map Prod.snd).sum)

/-- The progress fraction reported by `process_group_with_semaphore`
(`article_synthesis_service.py:219`–`226`) is `(i + 1) / len(groups)` where
`i` is the *submission index* of the group whose task just reached its
terminal state.  Under concurrent execution the tasks terminate in an
arbitrary order, so the sequence of reported fractions is the image of the
completion order under that formula. -/
def progressReports (total : Nat) (completionOrder : List Nat) : List ℚ :=
  completionOrder.map fun i => ((i : ℚ) + 1) / (total : ℚ)

/-- A deduplication service instance with trivial oracles, used to evaluate
the embedded code on concrete inputs. -/
def testDedup : DeduplicationService :=
  { embed := fun _ => [], tfidf := fun _ => [], norm := fun _ => 0 }

/-! ## Lemmas: grouping URLs by cluster label -/

theorem mem_labelKeys_aux (ls : List Nat) :
    ∀ (acc : List Nat) (x : Nat),
      (x ∈ ls.foldl (fun ks l => if l ∈ ks then ks else ks ++ [l]) acc ↔ x ∈ acc ∨ x ∈ ls) := by
  induction ls with
  | nil => intro acc x; simp
  | cons l ls ih =>
    intro acc x
    rw [List.foldl_cons, ih]
    by_cases h : l ∈ acc
    · simp only [if_pos h, List.mem_cons]
      constructor
      · rintro (hx | hx)
        · exact Or.inl hx
        · exact Or.inr (Or.inr hx)
      · rintro (hx | rfl | hx)
        · exact Or.inl hx
        · exact Or.inl h
        · exact Or.inr hx
    · simp only [if_neg h, List.mem_append, List.mem_singleton, List.mem_cons]
      tauto

/-- Membership in the first-appearance key list is membership in the labels. -/
theorem mem_labelKeys {ls : List Nat} {x : Nat} : x ∈ labelKeys ls ↔ x ∈ ls := by
  simpa [labelKeys] using mem_labelKeys_aux ls [] x

theorem labelKeys_nodup_aux (ls : List Nat) :
    ∀ acc : List Nat, acc.Nodup →
      (ls.foldl (fun ks l => if l ∈ ks then ks else ks ++ [l]) acc).Nodup := by
  induction ls with
  | nil => intro acc h; simpa using h
  | cons l ls ih =>
    intro acc h
    rw [List.foldl_cons]
    by_cases hmem : l ∈ acc
    · rw [if_pos hmem]; exact ih acc h
    · rw [if_neg hmem]
      refine ih _ (List.nodup_append.mpr ⟨h, List.nodup_singleton l, ?_⟩)
      intro a ha hal
      rw [List.mem_singleton] at hal
      exact hmem (hal ▸ ha)

/-- The distinct keys extracted from the labels are pairwise distinct. -/
theorem labelKeys_nodup (ls : List Nat) : (labelKeys ls).Nodup :=
  labelKeys_nodup_aux ls [] List.nodup_nil

/-- A URL belongs to the cluster labelled `k` exactly when it is paired with
label `k`. -/
theorem mem_groupFor {labels : List Nat} {urls : List String} {k : Nat} {u : String} :
    u ∈ groupFor labels urls k ↔ (k, u) ∈ labels.zip urls := by
  simp only [groupFor, List.mem_filterMap]
  constructor
  · rintro ⟨⟨a, b⟩, hmem, hif⟩
    by_cases h : a = k
    · subst h
      rw [if_pos rfl] at hif
      exact Option.some.inj hif ▸ hmem
    · simp [h] at hif
  · intro h
    exact ⟨(k, u), h, by simp⟩

theorem exists_key_of_mem {α : Type} :
    ∀ (labels : List Nat) (urls : List α), labels.length = urls.length →
      ∀ u ∈ urls, ∃ k, (k, u) ∈ labels.zip urls := by
  intro labels
  induction labels with
  | nil => intro urls hlen u hu; cases urls <;> simp_all
  | cons l ls ih =>
    intro urls hlen u hu
    cases urls with
    | nil => simp at hu
    | cons u₀ us =>
      rcases List.mem_cons.mp hu with rfl | hu
      · exact ⟨l, by simp⟩
      · obtain ⟨k, hk⟩ := ih us (by simpa using hlen) u hu
        exact ⟨k, List.mem_cons_of_mem _ hk⟩

/-- With distinct URLs, a URL determines its label in the zipped list. -/
theorem zip_key_unique :
    ∀ (labels : List Nat) (urls : List String), urls.Nodup →
      ∀ k k' u, (k, u) ∈ labels.zip urls → (k', u) ∈ labels.zip urls → k = k' := by
  intro labels
  induction labels with
  | nil => intro urls _ k k' u h; simp at h
  | cons l ls ih =>
    intro urls hnd k k' u h h'
    cases urls with
    | nil => simp at h
    | cons u₀ us =>
      rw [List.zip_cons_cons, List.mem_cons, Prod.mk.injEq] at h h'
      rcases h with ⟨rfl, rfl⟩ | h
      · rcases h' with ⟨rfl, _⟩ | h'
        · rfl
        · exact absurd ((List.of_mem_zip h').2) (List.nodup_cons.mp hnd).1
      · rcases h' with ⟨rfl, rfl⟩ | h'
        · exact absurd ((List.of_mem_zip h).2) (List.nodup_cons.mp hnd).1
        · exact ih us (List.nodup_cons.mp hnd).2 k k' u h h'

/-- Union of the grouped-by-label clusters: exactly the zipped URLs. -/
theorem exists_mem_groupsOfLabels {labels : List Nat} {urls : List String}
    (hlen : labels.length = urls.length) (u : String) :
    (∃ g ∈ groupsOfLabels labels urls, u ∈ g) ↔ u ∈ urls := by
  simp only [groupsOfLabels, List.mem_map]
  constructor
  · rintro ⟨g, ⟨k, _, rfl⟩, hu⟩
    exact (List.of_mem_zip (mem_groupFor.mp hu)).2
  · intro hu
    obtain ⟨k, hk⟩ := exists_key_of_mem labels urls hlen u hu
    exact ⟨groupFor labels urls k,
      ⟨k, mem_labelKeys.mpr (List.of_mem_zip hk).1, rfl⟩, mem_groupFor.mpr hk⟩

/-- With distinct URLs, the grouped-by-label clusters are pairwise disjoint. -/
theorem groupsOfLabels_pairwiseDisjoint {labels : List Nat} {urls : List String}
    (hnd : urls.Nodup) :
    (groupsOfLabels labels urls).Pairwise fun g g' => ∀ u, u ∈ g → u ∉ g' := by
  unfold groupsOfLabels
  rw [List.pairwise_map]
  refine (labelKeys_nodup labels).imp ?_
  intro k k' hne u hu hu'
  exact hne (zip_key_unique labels urls hnd k k' u (mem_groupFor.mp hu) (mem_groupFor.mp hu'))

/-- Two URLs share a grouped-by-label cluster iff some label pairs with both. -/
theorem sameGroup_iff {labels : List Nat} {urls : List String} {u v : String} :
    (∃ g ∈ groupsOfLabels labels urls, u ∈ g ∧ v ∈ g) ↔
      ∃ k, (k, u) ∈ labels.zip urls ∧ (k, v) ∈ labels.zip urls := by
  simp only [groupsOfLabels, List.mem_map]
  constructor
  · rintro ⟨g, ⟨k, _, rfl⟩, hu, hv⟩
    exact ⟨k, mem_groupFor.mp hu, mem_groupFor.mp hv⟩
  · rintro ⟨k, hu, hv⟩
    exact ⟨groupFor labels urls k,
      ⟨k, mem_labelKeys.mpr (List.of_mem_zip hu).1, rfl⟩,
      mem_groupFor.mpr hu, mem_groupFor.mpr hv⟩

/-- Membership in the zip of a labelling map over `range` with the URL list,
characterised by positions. -/
theorem mem_mapRange_zip {α : Type} (urls : List α) (f : Nat → Nat) (k : Nat) (u : α) :
    (k, u) ∈ ((List.range urls.length).map f).zip urls ↔
      ∃ i, f i = k ∧ urls.get? i = some u := by
  induction urls generalizing f with
  | nil => simp
  | cons u₀ us ih =>
    rw [List.length_cons, List.range_succ_eq_map, List.map_cons, List.map_map,
      List.zip_cons_cons, List.mem_cons]
    constructor
    · rintro (h | h)
      · simp only [Prod.mk.injEq] at h
        exact ⟨0, h.1.symm, by rw [h.2]; rfl⟩
      · obtain ⟨i, hk, hu⟩ := (ih (f ∘ Nat.succ)).mp h
        exact ⟨i + 1, hk, by simpa using hu⟩
    · rintro ⟨i, hk, hu⟩
      cases i with
      | zero =>
        left
        have : u₀ = u := Option.some.inj hu
        rw [← hk, this]
      | succ n =>
        right
        exact (ih (f ∘ Nat.succ)).mpr ⟨n, hk, by simpa using hu⟩

/-! ## Lemmas: cutting the dendrogram is monotone in the threshold -/

theorem mergeReps_congr (p : Nat → Nat) (a b x y : Nat) (h : p x = p y) :
    mergeReps p a b x = mergeReps p a b y := by
  unfold mergeReps
  rw [h]

theorem mergeReps_refines {p1 p2 : Nat → Nat} (a b : Nat)
    (href : ∀ x y, p2 x = p2 y → p1 x = p1 y) :
    ∀ x y, mergeReps p2 a b x = mergeReps p2 a b y → mergeReps p1 a b x = mergeReps p1 a b y := by
  intro x y hxy
  simp only [mergeReps] at hxy ⊢
  by_cases hx : p2 x = p2 b <;> by_cases hy : p2 y = p2 b
  · rw [if_pos (href x b hx), if_pos (href y b hy)]
  · rw [if_pos hx, if_neg hy] at hxy
    rw [if_pos (href x b hx)]
    by_cases hyb : p1 y = p1 b
    · rw [if_pos hyb]
    · rw [if_neg hyb]
      exact href a y hxy
  · rw [if_neg hx, if_pos hy] at hxy
    rw [if_pos (href y b hy)]
    by_cases hxb : p1 x = p1 b
    · rw [if_pos hxb]
    · rw [if_neg hxb]
      exact href x a hxy
  · rw [if_neg hx, if_neg hy] at hxy
    rw [href x y hxy]

/-- Folding the applied merges at a smaller cut threshold refines the result
of folding them at a larger one. -/
theorem cutFold_refines (t1 t2 : ℚ) (ht : t2 ≤ t1) (steps : List MergeStep) :
    ∀ (p1 p2 : Nat → Nat), (∀ x y, p2 x = p2 y → p1 x = p1 y) →
      ∀ x y,
        steps.foldl (fun p s => if s.maxh ≤ t2 then mergeReps p s.repA s.repB else p) p2 x =
          steps.foldl (fun p s => if s.maxh ≤ t2 then mergeReps p s.repA s.repB else p) p2 y →
        steps.foldl (fun p s => if s.maxh ≤ t1 then mergeReps p s.repA s.repB else p) p1 x =
          steps.foldl (fun p s => if s.maxh ≤ t1 then mergeReps p s.repA s.repB else p) p1 y := by
  induction steps with
  | nil => intro p1 p2 href x y hxy; exact href x y hxy
  | cons s steps ih =>
    intro p1 p2 href x y hxy
    rw [List.foldl_cons] at hxy ⊢
    refine ih _ _ ?_ x y hxy
    by_cases h2 : s.maxh ≤ t2
    · rw [if_pos h2, if_pos (le_trans h2 ht)]
      exact mergeReps_refines s.repA s.repB href
    · by_cases h1 : s.maxh ≤ t1
      · rw [if_neg h2, if_pos h1]
        intro x y hq
        exact mergeReps_congr p1 s.repA s.repB x y (href x y hq)
      · rw [if_neg h2, if_neg h1]
        exact href

/-- Cutting a fixed dendrogram at a smaller distance threshold refines the
partition obtained at a larger one: leaves identified at the small threshold
are identified at the large one. -/
theorem cutPart_refines {t1 t2 : ℚ} (ht : t2 ≤ t1) (steps : List MergeStep) (x y : Nat)
    (h : cutPart steps t2 x = cutPart steps t2 y) : cutPart steps t1 x = cutPart steps t1 y :=
  cutFold_refines t1 t2 ht steps id id (fun _ _ hq => hq) x y h

/-! ## Lemmas: the adaptive weight matrix in closed form -/

theorem mem_upperPairs {n : Nat} {p : Nat × Nat} : p ∈ upperPairs n ↔ p.1 < p.2 ∧ p.2 < n := by
  obtain ⟨i, j⟩ := p
  simp only [upperPairs, List.mem_flatMap, List.mem_map, List.mem_filter, List.mem_range,
    decide_eq_true_eq]
  constructor
  · rintro ⟨a, ha, j', ⟨hj', hlt⟩, heq⟩
    simp only [Prod.mk.injEq] at heq
    obtain ⟨rfl, rfl⟩ := heq
    exact ⟨hlt, hj'⟩
  · rintro ⟨hij, hjn⟩
    exact ⟨i, by omega, j, ⟨hjn, hij⟩, rfl⟩

theorem weightFold_eq (domains : List String) (L : List (Nat × Nat)) :
    ∀ (W0 : Nat → Nat → ℚ) (a b : Nat),
      (L.foldl (weightStep domains) W0) a b =
        if ∃ p ∈ L, sameProblematic domains p ∧ pairHits a b p then 3/5 else W0 a b := by
  induction L with
  | nil => intro W0 a b; simp
  | cons q L ih =>
    intro W0 a b
    rw [List.foldl_cons, ih]
    by_cases hq : sameProblematic domains q ∧ pairHits a b q
    · have hcons : ∃ p ∈ q :: L, sameProblematic domains p ∧ pairHits a b p :=
        ⟨q, List.mem_cons_self q L, hq⟩
      rw [if_pos hcons]
      by_cases hL : ∃ p ∈ L, sameProblematic domains p ∧ pairHits a b p
      · rw [if_pos hL]
      · rw [if_neg hL]
        simp [weightStep, hq.1, hq.2]
    · have hiff : (∃ p ∈ q :: L, sameProblematic domains p ∧ pairHits a b p) ↔
          ∃ p ∈ L, sameProblematic domains p ∧ pairHits a b p := by
        constructor
        · rintro ⟨p, hp, hc⟩
          rcases List.mem_cons.mp hp with rfl | hp
          · exact absurd hc hq
          · exact ⟨p, hp, hc⟩
        · rintro ⟨p, hp, hc⟩
          exact ⟨p, List.mem_cons_of_mem _ hp, hc⟩
      rw [if_congr hiff rfl rfl]
      refine if_congr Iff.rfl rfl ?_
      unfold weightStep
      by_cases hsp : sameProblematic domains q
      · rw [if_pos hsp]
        show (if pairHits a b q then (3 : ℚ)/5 else W0 a b) = W0 a b
        rw [if_neg fun hh => hq ⟨hsp, hh⟩]
      · rw [if_neg hsp]

/-- Closed form of the adaptive weight matrix: `0.6` exactly on the
off-diagonal in-range cells whose two documents share a problematic domain,
the base weight everywhere else (including the diagonal, which the loop
`for j in range(i + 1, n)` never touches). -/
theorem adaptiveWeights_eq (w : ℚ) (ds : List String) (a b : Nat) :
    adaptiveWeights w ds a b =
      if a ≠ b ∧ a < ds.length ∧ b < ds.length ∧ ds.getD a "" = ds.getD b "" ∧
          ds.getD a "" ∈ problematic_domains
      then 3/5 else w := by
  unfold adaptiveWeights
  rw [weightFold_eq]
  refine if_congr ?_ rfl rfl
  constructor
  · rintro ⟨p, hp, hsp, hhit⟩
    obtain ⟨hlt, hn⟩ := mem_upperPairs.mp hp
    rcases hhit with ⟨rfl, rfl⟩ | ⟨rfl, rfl⟩
    · exact ⟨Nat.ne_of_lt hlt, by omega, hn, hsp.1, hsp.2⟩
    · exact ⟨(Nat.ne_of_lt hlt).symm, hn, by omega, hsp.1.symm, hsp.1 ▸ hsp.2⟩
  · rintro ⟨hne, ha, hb, hdeq, hdm⟩
    rcases Nat.lt_or_gt_of_ne hne with h | h
    · exact ⟨(a, b), mem_upperPairs.mpr ⟨h, hb⟩, ⟨hdeq, hdm⟩, Or.inl ⟨rfl, rfl⟩⟩
    · exact ⟨(b, a), mem_upperPairs.mpr ⟨h, ha⟩, ⟨hdeq.symm, hdeq ▸ hdm⟩, Or.inr ⟨rfl, rfl⟩⟩

theorem adaptiveWeights_symm (w : ℚ) (ds : List String) (i j : Nat) :
    adaptiveWeights w ds i j = adaptiveWeights w ds j i := by
  rw [adaptiveWeights_eq, adaptiveWeights_eq]
  refine if_congr ?_ rfl rfl
  constructor
  · rintro ⟨hne, hi, hj, hdeq, hdm⟩
    exact ⟨hne.symm, hj, hi, hdeq.symm, hdeq ▸ hdm⟩
  · rintro ⟨hne, hj, hi, hdeq, hdm⟩
    exact ⟨hne.symm, hi, hj, hdeq.symm, hdeq ▸ hdm⟩

/-! ## Lemmas: cosine similarity symmetry -/

theorem dotList_comm (x y : List ℚ) : dotList x y = dotList y x := by
  unfold dotList
  rw [List.zipWith_comm_of_comm (· * ·) mul_comm]

theorem cosineSim_symm (norm : List ℚ → ℚ) (rows : List (List ℚ)) (i j : Nat) :
    cosineSim norm rows i j = cosineSim norm rows j i := by
  unfold cosineSim
  rw [dotList_comm, mul_comm]

/-! ## Lemmas: the synthesis orchestrator -/

theorem dictGet_ne_contains {d : List (String × String)} {k : String}
    (h : dictGet d k "" ≠ "") : dictContains d k = true := by
  unfold dictGet at h
  unfold dictContains
  cases hf : d.find? fun p => p.1 == k with
  | none => rw [hf] at h; exact absurd rfl h
  | some p => simp [hf]

/-- A multi-document synthesis performs exactly one external generation
attempt, whatever its outcome. -/
theorem synthesize_article_attempts (svc : ArticleSynthesisService) (ac : List String)
    (h : 2 ≤ ac.length) : (svc.synthesize_article_async ac).2 = 1 := by
  match ac with
  | [] => simp at h
  | [c] => simp at h
  | a :: b :: rest =>
    unfold ArticleSynthesisService.synthesize_article_async
    cases svc.gen 0 (build_synthesis_prompt (a :: b :: rest)) <;> rfl

/-- A failing generation attempt yields exactly the degraded error record. -/
theorem synthesize_article_fail (svc : ArticleSynthesisService) (ac : List String) (e : String)
    (h : 2 ≤ ac.length) (hfail : svc.gen 0 (build_synthesis_prompt ac) = Except.error e) :
    (svc.synthesize_article_async ac).1 =
      ⟨"Error al generar artículo", "No se pudo generar el artículo: " ++ e, ""⟩ := by
  match ac with
  | [] => simp at h
  | [c] => simp at h
  | a :: b :: rest =>
    unfold ArticleSynthesisService.synthesize_article_async
    rw [hfail]

/-- A group yields a record exactly when one of its member URLs has non-empty
content. -/
theorem synthesize_group_isSome (svc : ArticleSynthesisService) (g : List String)
    (u2c : List (String × String)) (hg : g ≠ []) :
    ((svc.synthesize_group_async g u2c).1).isSome = true ↔
      ∃ url ∈ g, dictGet u2c url "" ≠ "" := by
  match g with
  | [] => exact absurd rfl hg
  | [url] =>
    by_cases hc : dictGet u2c url "" = ""
    · simp [ArticleSynthesisService.synthesize_group_async, hc]
    · simp [ArticleSynthesisService.synthesize_group_async, hc]
  | a :: b :: rest =>
    cases hac : (((a :: b :: rest).filter fun url => dictContains u2c url).map
        fun url => dictGet u2c url "").filter fun c => c != "" with
    | nil =>
      have hforall : ∀ url ∈ a :: b :: rest, ¬ dictGet u2c url "" ≠ "" := by
        intro url hurl hne
        have hmem : dictGet u2c url "" ∈ ((a :: b :: rest).filter fun url =>
            dictContains u2c url).map fun url => dictGet u2c url "" :=
          List.mem_map_of_mem _ (List.mem_filter.mpr ⟨hurl, dictGet_ne_contains hne⟩)
        have hin : dictGet u2c url "" ∈ ((((a :: b :: rest).filter fun url =>
            dictContains u2c url).map fun url => dictGet u2c url "").filter
              fun c => c != "") :=
          List.mem_filter.mpr ⟨hmem, by simpa using hne⟩
        rw [hac] at hin
        simp at hin
      simp only [ArticleSynthesisService.synthesize_group_async]
      rw [if_pos (by simp)]
      simp only [hac]
      constructor
      · intro hfalse
        exact absurd hfalse (by decide)
      · rintro ⟨url, hurl, hne⟩
        exact absurd hne (hforall url hurl)
    | cons c cs =>
      have hcmem : c ∈ (((a :: b :: rest).filter fun url => dictContains u2c url).map
          fun url => dictGet u2c url "").filter fun c => c != "" := by
        rw [hac]
        exact List.mem_cons_self c cs
      obtain ⟨hcm, hcne⟩ := List.mem_filter.mp hcmem
      obtain ⟨url, hurl, hrfl⟩ := List.mem_map.mp hcm
      simp only [ArticleSynthesisService.synthesize_group_async]
      rw [if_pos (by simp)]
      simp only [hac, Option.isSome_some, true_iff]
      exact ⟨url, (List.mem_filter.mp hurl).1, by rw [hrfl]; simpa using hcne⟩

/-- Whenever a group yields a record, that record carries the group itself as
its `source_urls`. -/
theorem synthesize_group_source_urls (svc : ArticleSynthesisService) (g : List String)
    (u2c : List (String × String)) (a : SynthesizedArticle)
    (h : (svc.synthesize_group_async g u2c).1 = some a) : a.source_urls = g := by
  match g with
  | [] =>
    simp [ArticleSynthesisService.synthesize_group_async] at h
  | [url] =>
    simp only [ArticleSynthesisService.synthesize_group_async] at h
    by_cases hc : (dictGet u2c url "" != "") = true
    · rw [if_neg (by simp), if_pos hc] at h
      rw [← Option.some.inj h]
    · rw [if_neg (by simp), if_neg hc] at h
      simp at h
  | x :: y :: rest =>
    simp only [ArticleSynthesisService.synthesize_group_async] at h
    rw [if_pos (by simp)] at h
    cases hac : (((x :: y :: rest).filter fun url => dictContains u2c url).map
        fun url => dictGet u2c url "").filter fun c => c != "" with
    | nil =>
      rw [hac] at h
      simp at h
    | cons c cs =>
      rw [hac] at h
      rw [← Option.some.inj h]

theorem length_filterMap_eq {α γ : Type} (f : α → Option γ) (l : List α) :
    (l.filterMap f).length = (l.filter fun a => (f a).isSome).length := by
  induction l with
  | nil => rfl
  | cons a l ih => cases hf : f a <;> simp [List.filterMap_cons, List.filter_cons, hf, ih]

theorem filterMap_eq_flatMap_toList {α γ : Type} (f : α → Option γ) (l : List α) :
    l.filterMap f = l.flatMap fun a => (f a).toList := by
  induction l with
  | nil => rfl
  | cons a l ih => cases hf : f a <;> simp [List.filterMap_cons, hf, ih]

/-! ## Concrete service instances used to evaluate the embedded code -/

/-- A synthesis service whose external generation call always raises. -/
def testSynth : ArticleSynthesisService := { gen := fun _ _ => Except.error "fallo" }

/-- A synthesis service whose generation call fails transiently: the first
attempt raises, any retry would succeed. -/
def testSynthRetry : ArticleSynthesisService :=
  { gen := fun attempt _ =>
      if attempt = 0 then Except.error "timeout" else Except.ok "# Titular\nCuerpo" }

/-! ## Claim C7 — default similarity threshold -/

/-- C7, counterexample: the constructor default of `similarity_threshold` is
`0.85`, not `0.75` as claimed (the `0.75` of the spec is what the dashboard
caller passes explicitly, not the default). -/
theorem C7_cex : testDedup.similarity_threshold = 17/20 ∧ ((17 : ℚ)/20) ≠ 3/4 :=
  of_decide_eq_true (by with_unfolding_all rfl)

/-- C7, amended: when the caller does not configure it, the grouping engine's
similarity threshold defaults to `0.85` (and the base blend weight to
`0.30`). -/
theorem C7_default (e f : List String → List (List ℚ)) (nm : List ℚ → ℚ) :
    ({ embed := e, tfidf := f, norm := nm } : DeduplicationService).similarity_threshold = 17/20 ∧
    ({ embed := e, tfidf := f, norm := nm } : DeduplicationService).bm25_weight = 3/10 :=
  ⟨rfl, rfl⟩

/-! ## Claim C10 — all-empty contents short-circuit -/

/-- C10: on a non-empty input mapping all of whose texts are empty,
`group_similar_articles` returns one singleton group per input URL in input
order, issues no embedding call, and runs no clustering computation. -/
theorem C10_empty_contents (svc : DeduplicationService) (uc : List (String × String))
    (h1 : uc ≠ []) (h2 : ∀ p ∈ uc, p.2 = "") :
    svc.group_similar_articles uc = ⟨uc.map fun p => [p.1], 0, 0⟩ := by
  unfold DeduplicationService.group_similar_articles
  rw [if_neg (by simpa using h1)]
  have hfil : uc.filter (fun p => p.2 != "") = [] := by
    rw [List.filter_eq_nil_iff]
    intro p hp
    simp [h2 p hp]
  rw [hfil]

/-- C10, witness at a concrete two-entry mapping with empty texts. -/
theorem C10_witness :
    testDedup.group_similar_articles [("u", ""), ("v", "")] = ⟨[["u"], ["v"]], 0, 0⟩ :=
  C10_empty_contents testDedup [("u", ""), ("v", "")] (by decide) (by decide)

/-! ## Claim C9 — symmetry of the three similarity matrices -/

/-- C9: the lexical (BM25/TF-IDF), semantic (embedding) and hybrid similarity
matrices of a run are all symmetric, for every service configuration and
every document list. -/
theorem C9_symmetry (svc : DeduplicationService) (urls contents : List String) (i j : Nat) :
    svc.compute_bm25_similarity contents i j = svc.compute_bm25_similarity contents j i ∧
    svc.semanticMatrix contents i j = svc.semanticMatrix contents j i ∧
    svc.hybridMatrix urls contents i j = svc.hybridMatrix urls contents j i := by
  refine ⟨cosineSim_symm svc.norm (svc.tfidf (contents.map preprocess_text)) i j,
    cosineSim_symm svc.norm (svc.get_openai_embeddings contents).1 i j, ?_⟩
  unfold DeduplicationService.hybridMatrix hybridCombine
    DeduplicationService.compute_bm25_similarity DeduplicationService.semanticMatrix
  rw [adaptiveWeights_symm svc.bm25_weight (urls.map urlNetloc) i j,
    cosineSim_symm svc.norm (svc.tfidf (contents.map preprocess_text)) i j,
    cosineSim_symm svc.norm (svc.get_openai_embeddings contents).1 i j]

/-! ## Claim C4 — adaptive blend weight -/

/-- C4, counterexample: at the diagonal cell `(0, 0)` both endpoints
(trivially) share the ambiguous domain `boadilladigital.es`, so the claim
demands weight `0.60`; the loop `for j in range(i + 1, n)` never touches the
diagonal and the code keeps the base weight `0.30` there. -/
theorem C4_cex :
    (["https://boadilladigital.es/a", "https://boadilladigital.es/b"].map urlNetloc).getD 0 ""
        ∈ problematic_domains ∧
    adaptiveWeights (3/10)
        (["https://boadilladigital.es/a", "https://boadilladigital.es/b"].map urlNetloc) 0 0
      = 3/10 ∧
    ((3 : ℚ)/10) ≠ 3/5 :=
  of_decide_eq_true (by with_unfolding_all rfl)

/-- C4, amended: for in-range cells the blend weight is `0.60` exactly when
`i ≠ j` and both documents share an ambiguous domain, and the base weight
`w_base` otherwise — in particular on every diagonal cell; with that weight
`H[i,j] = w·Lexical[i,j] + (1-w)·Semantic[i,j]`. -/
theorem C4_hybrid_blend (svc : DeduplicationService) (urls contents : List String) (i j : Nat)
    (hi : i < urls.length) (hj : j < urls.length) :
    svc.hybridMatrix urls contents i j =
      (if i ≠ j ∧ (urls.map urlNetloc).getD i "" = (urls.map urlNetloc).getD j "" ∧
          (urls.map urlNetloc).getD i "" ∈ problematic_domains then (3 : ℚ)/5
        else svc.bm25_weight) * svc.compute_bm25_similarity contents i j +
      (1 - (if i ≠ j ∧ (urls.map urlNetloc).getD i "" = (urls.map urlNetloc).getD j "" ∧
          (urls.map urlNetloc).getD i "" ∈ problematic_domains then (3 : ℚ)/5
        else svc.bm25_weight)) * svc.semanticMatrix contents i j := by
  have hW : adaptiveWeights svc.bm25_weight (urls.map urlNetloc) i j =
      if i ≠ j ∧ (urls.map urlNetloc).getD i "" = (urls.map urlNetloc).getD j "" ∧
          (urls.map urlNetloc).getD i "" ∈ problematic_domains then (3 : ℚ)/5
      else svc.bm25_weight := by
    rw [adaptiveWeights_eq]
    refine if_congr ?_ rfl rfl
    constructor
    · rintro ⟨h1, _, _, h4, h5⟩
      exact ⟨h1, h4, h5⟩
    · rintro ⟨h1, h4, h5⟩
      exact ⟨h1, by simpa using hi, by simpa using hj, h4, h5⟩
  unfold DeduplicationService.hybridMatrix hybridCombine
  rw [hW]

/-- C4, witness at a concrete off-diagonal in-range cell. -/
theorem C4_witness :
    (0 : Nat) < (["https://a.com/x", "https://b.com/y"] : List String).length ∧
    (1 : Nat) < (["https://a.com/x", "https://b.com/y"] : List String).length ∧
    testDedup.hybridMatrix ["https://a.com/x", "https://b.com/y"] ["ca", "cb"] 0 1 =
      (if (0 : Nat) ≠ 1 ∧
          ((["https://a.com/x", "https://b.com/y"] : List String).map urlNetloc).getD 0 ""
            = ((["https://a.com/x", "https://b.com/y"] : List String).map urlNetloc).getD 1 "" ∧
          ((["https://a.com/x", "https://b.com/y"] : List String).map urlNetloc).getD 0 ""
            ∈ problematic_domains then (3 : ℚ)/5
        else testDedup.bm25_weight) * testDedup.compute_bm25_similarity ["ca", "cb"] 0 1 +
      (1 - (if (0 : Nat) ≠ 1 ∧
          ((["https://a.com/x", "https://b.com/y"] : List String).map urlNetloc).getD 0 ""
            = ((["https://a.com/x", "https://b.com/y"] : List String).map urlNetloc).getD 1 "" ∧
          ((["https://a.com/x", "https://b.com/y"] : List String).map urlNetloc).getD 0 ""
            ∈ problematic_domains then (3 : ℚ)/5
        else testDedup.bm25_weight)) * testDedup.semanticMatrix ["ca", "cb"] 0 1 :=
  ⟨by decide, by decide,
    C4_hybrid_blend testDedup ["https://a.com/x", "https://b.com/y"] ["ca", "cb"] 0 1
      (by decide) (by decide)⟩

/-! ## Claim C5 — progress reporting under concurrency -/

/-- C5: the progress fraction reported on each task completion is computed
from the group's submission index, not from a completed-task counter; with
two groups whose tasks finish in the order (group 1, group 0) — a legal
completion order, a permutation of the submission order — the code reports
`1.0` and then `0.5`, a decreasing sequence, contradicting the claimed
monotonicity for every completion order. -/
theorem C5_progress_bug :
    List.Perm [1, 0] (List.range 2) ∧
    progressReports 2 [1, 0] = [1, 1/2] ∧
    ¬ List.Chain' (· ≤ ·) (progressReports 2 [1, 0]) := by
  have h12 : progressReports 2 [1, 0] = [1, 1/2] :=
    of_decide_eq_true (by with_unfolding_all rfl)
  refine ⟨by decide, h12, ?_⟩
  rw [h12, List.chain'_cons]
  rintro ⟨hle, -⟩
  norm_num at hle

/-! ## Claim C6 — retry policy of the external calls -/

/-- C6, counterexample: the generation call fails transiently (attempt 0
raises, attempt 1 would succeed), yet the service performs exactly one
attempt and immediately returns the degraded failure record — there is no
retry and no backoff anywhere in the service. -/
theorem C6_cex :
    testSynthRetry.gen 0 (build_synthesis_prompt ["uno", "dos"]) = Except.error "timeout" ∧
    testSynthRetry.gen 1 (build_synthesis_prompt ["uno", "dos"]) = Except.ok "# Titular\nCuerpo" ∧
    (testSynthRetry.synthesize_article_async ["uno", "dos"]).2 = 1 ∧
    (testSynthRetry.synthesize_article_async ["uno", "dos"]).1.title = "Error al generar artículo" :=
  ⟨rfl, rfl, rfl, rfl⟩

/-- C6, amended: the generative call of a multi-document synthesis is
attempted exactly once — also on failure, which is immediately treated as
final — and the embedding batch call is likewise issued exactly once per
invocation, never retried. -/
theorem C6_no_retries (svc : ArticleSynthesisService) (ac : List String) (h : 2 ≤ ac.length)
    (dsvc : DeduplicationService) (texts : List String) :
    (svc.synthesize_article_async ac).2 = 1 ∧ (dsvc.get_openai_embeddings texts).2 = 1 :=
  ⟨synthesize_article_attempts svc ac h, rfl⟩

/-- C6, witness at a concrete two-document group and a failing service. -/
theorem C6_witness :
    2 ≤ (["uno", "dos"] : List String).length ∧
    ((testSynthRetry.synthesize_article_async ["uno", "dos"]).2 = 1 ∧
      (testDedup.get_openai_embeddings ["t"]).2 = 1) :=
  ⟨by decide, C6_no_retries testSynthRetry ["uno", "dos"] (by decide) testDedup ["t"]⟩

/-! ## Claim C8 — degraded record on failure, no cross-group propagation -/

/-- C8: when the generation call for a multi-document group raises, the group
still yields a record whose title is the fixed failure marker and whose
content reports the error text; and the output of a whole run decomposes
group by group — each group contributes exactly the record (or absence of
one) of its own standalone synthesis, so one group's failure cannot alter
any other group's result. -/
theorem C8_degraded_isolated (svc : ArticleSynthesisService) (ac : List String) (e : String)
    (hlen : 2 ≤ ac.length) (hfail : svc.gen 0 (build_synthesis_prompt ac) = Except.error e)
    (groups : List (List String)) (u2c : List (String × String)) :
    (svc.synthesize_article_async ac).1 =
      ⟨"Error al generar artículo", "No se pudo generar el artículo: " ++ e, ""⟩ ∧
    (svc.synthesize_all_groups_async groups u2c).1 =
      groups.flatMap fun g => ((svc.synthesize_group_async g u2c).1).toList := by
  refine ⟨synthesize_article_fail svc ac e hlen hfail, ?_⟩
  unfold ArticleSynthesisService.synthesize_all_groups_async
  rw [← filterMap_eq_flatMap_toList]
  show (groups.map fun g => svc.synthesize_group_async g u2c).filterMap Prod.fst =
    groups.filterMap fun g => (svc.synthesize_group_async g u2c).1
  rw [List.filterMap_map]
  rfl

/-- C8, witness: a concrete failing generation call. -/
theorem C8_witness :
    2 ≤ (["uno", "dos"] : List String).length ∧
    testSynth.gen 0 (build_synthesis_prompt ["uno", "dos"]) = Except.error "fallo" ∧
    ((testSynth.synthesize_article_async ["uno", "dos"]).1 =
        ⟨"Error al generar artículo", "No se pudo generar el artículo: " ++ "fallo", ""⟩ ∧
      (testSynth.synthesize_all_groups_async [["x"]] []).1 =
        [["x"]].flatMap fun g => ((testSynth.synthesize_group_async g []).1).toList) :=
  ⟨by decide, rfl,
    C8_degraded_isolated testSynth ["uno", "dos"] "fallo" (by decide) rfl [["x"]] []⟩

/-! ## Claim C2 — synthesis completeness -/

/-- C2, counterexample: a singleton group whose URL has no content yields
`None`, which `synthesize_all_groups_async` filters out — the output has no
record for that group, so `len(output) ≠ len(groups)`. -/
theorem C2_cex :
    (testSynth.synthesize_all_groups_async [["u"]] []).1.length
      ≠ ([["u"]] : List (List String)).length := by
  decide

/-- C2, amended: the orchestrator returns exactly one record per group having
at least one member URL with non-empty content — also when the group's
external generation call fails — and each such group's record carries that
group as its `source_urls`; groups none of whose members have content are
silently omitted. -/
theorem C2_one_record_per_content_group (svc : ArticleSynthesisService)
    (groups : List (List String)) (u2c : List (String × String))
    (hne : ∀ g ∈ groups, g ≠ []) :
    (svc.synthesize_all_groups_async groups u2c).1.length =
      (groups.filter fun g => decide (∃ url ∈ g, dictGet u2c url "" ≠ "")).length ∧
    ∀ g ∈ groups, (∃ url ∈ g, dictGet u2c url "" ≠ "") →
      ∃ a ∈ (svc.synthesize_all_groups_async groups u2c).1, a.source_urls = g := by
  constructor
  · show ((groups.map fun g => svc.synthesize_group_async g u2c).filterMap Prod.fst).length = _
    rw [List.filterMap_map, length_filterMap_eq]
    refine congrArg List.length (List.filter_congr ?_)
    intro g hg
    rw [Bool.eq_iff_iff, decide_eq_true_eq]
    exact synthesize_group_isSome svc g u2c (hne g hg)
  · intro g hg hcontent
    obtain ⟨a, ha⟩ := Option.isSome_iff_exists.mp
      ((synthesize_group_isSome svc g u2c (hne g hg)).mpr hcontent)
    refine ⟨a, ?_, synthesize_group_source_urls svc g u2c a ha⟩
    show a ∈ (groups.map fun g => svc.synthesize_group_async g u2c).filterMap Prod.fst
    rw [List.filterMap_map]
    exact List.mem_filterMap.mpr ⟨g, hg, ha⟩

/-- C2, witness: two groups, one with content (synthesized through a failing
generation call) and one without (omitted). -/
theorem C2_witness :
    (∀ g ∈ ([["u1", "u2"], ["v"]] : List (List String)), g ≠ []) ∧
    ((testSynth.synthesize_all_groups_async [["u1", "u2"], ["v"]]
          [("u1", "c1"), ("u2", "c2")]).1.length =
        (([["u1", "u2"], ["v"]] : List (List String)).filter
          fun g => decide (∃ url ∈ g, dictGet [("u1", "c1"), ("u2", "c2")] url "" ≠ "")).length ∧
      ∀ g ∈ ([["u1", "u2"], ["v"]] : List (List String)),
        (∃ url ∈ g, dictGet [("u1", "c1"), ("u2", "c2")] url "" ≠ "") →
        ∃ a ∈ (testSynth.synthesize_all_groups_async [["u1", "u2"], ["v"]]
            [("u1", "c1"), ("u2", "c2")]).1, a.source_urls = g) :=
  ⟨by decide,
    C2_one_record_per_content_group testSynth [["u1", "u2"], ["v"]]
      [("u1", "c1"), ("u2", "c2")] (by decide)⟩

/-! ## Claims C1 and C3 — partition and threshold behaviour of the grouping -/

/-- The clustering stage groups exactly the URLs it was given. -/
theorem clusterStage_mem (hybrid : Nat → Nat → ℚ) (τ : ℚ) (urls : List String) (u : String) :
    (∃ g ∈ clusterStage hybrid τ urls, u ∈ g) ↔ u ∈ urls := by
  simp only [clusterStage]
  exact exists_mem_groupsOfLabels (by simp) u

/-- With distinct URLs, the clustering stage's groups are pairwise disjoint. -/
theorem clusterStage_pairwise (hybrid : Nat → Nat → ℚ) (τ : ℚ) (urls : List String)
    (hnd : urls.Nodup) :
    (clusterStage hybrid τ urls).Pairwise fun g g' => ∀ u, u ∈ g → u ∉ g' := by
  simp only [clusterStage]
  exact groupsOfLabels_pairwiseDisjoint hnd

/-- C1, counterexample: with one contentful and one content-less document,
the single-valid-document shortcut returns `[["a"]]` only — the id `"b"` is
dropped from the union of the returned groups, so the union is not set-equal
to the input id set. -/
theorem C1_cex :
    "b" ∈ ([("a", "x"), ("b", "")].map Prod.fst) ∧
    (testDedup.group_similar_articles [("a", "x"), ("b", "")]).groups = [["a"]] ∧
    ∀ g ∈ (testDedup.group_similar_articles [("a", "x"), ("b", "")]).groups, "b" ∉ g := by
  decide

/-- C1, amended: for distinct input ids, the union of the returned groups is
set-equal to the ids of the documents with non-empty text — except that when
no document has text, every input id gets its own singleton group — and the
groups are pairwise disjoint.  (Documents with empty text are dropped
whenever at least one document has text.) -/
theorem C1_partition (svc : DeduplicationService) (uc : List (String × String))
    (hnd : (uc.map Prod.fst).Nodup) :
    (∀ u, (∃ g ∈ (svc.group_similar_articles uc).groups, u ∈ g) ↔
        u ∈ (if (uc.filter fun p => p.2 != "").isEmpty then uc.map Prod.fst
          else (uc.filter fun p => p.2 != "").map Prod.fst)) ∧
    ((svc.group_similar_articles uc).groups).Pairwise fun g g' => ∀ u, u ∈ g → u ∉ g' := by
  unfold DeduplicationService.group_similar_articles
  by_cases hempty : uc.isEmpty
  · obtain rfl : uc = [] := by simpa using hempty
    simp
  · rw [if_neg hempty]
    rcases hv : uc.filter (fun p => p.2 != "") with _ | ⟨p1, _ | ⟨p2, rest⟩⟩
    · rw [hv]
      refine ⟨fun u => ?_, ?_⟩
      · show (∃ g ∈ uc.map fun p => [p.1], u ∈ g) ↔ u ∈ uc.map Prod.fst
        constructor
        · rintro ⟨g, hg, hu⟩
          obtain ⟨p, hp, rfl⟩ := List.mem_map.mp hg
          rw [List.mem_singleton] at hu
          exact List.mem_map.mpr ⟨p, hp, hu.symm⟩
        · intro hu
          obtain ⟨p, hp, rfl⟩ := List.mem_map.mp hu
          exact ⟨[p.1], List.mem_map.mpr ⟨p, hp, rfl⟩, List.mem_singleton.mpr rfl⟩
      · show (uc.map fun p => [p.1]).Pairwise fun g g' => ∀ u, u ∈ g → u ∉ g'
        rw [List.pairwise_map]
        refine (List.pairwise_map.mp hnd).imp ?_
        intro p q hpq u hu hu'
        rw [List.mem_singleton] at hu hu'
        exact hpq (hu.symm.trans hu')
    · rw [hv]
      refine ⟨fun u => ?_, ?_⟩
      · simp
      · simp
    · rw [hv]
      have hnd2 : ((p1 :: p2 :: rest).map Prod.fst).Nodup := by
        have hsub : (uc.filter fun p => p.2 != "").Sublist uc := List.filter_sublist uc
        have hx := hnd.sublist (hsub.map Prod.fst)
        rw [hv] at hx
        exact hx
      refine ⟨fun u => ?_, ?_⟩
      · show (∃ g ∈ clusterStage
            (svc.hybridMatrix ((p1 :: p2 :: rest).map Prod.fst)
              ((p1 :: p2 :: rest).map Prod.snd))
            svc.similarity_threshold ((p1 :: p2 :: rest).map Prod.fst), u ∈ g) ↔
          u ∈ (if (p1 :: p2 :: rest : List (String × String)).isEmpty
            then uc.map Prod.fst else (p1 :: p2 :: rest).map Prod.fst)
        rw [clusterStage_mem]
        simp
      · show (clusterStage
            (svc.hybridMatrix ((p1 :: p2 :: rest).map Prod.fst)
              ((p1 :: p2 :: rest).map Prod.snd))
            svc.similarity_threshold ((p1 :: p2 :: rest).map Prod.fst)).Pairwise
          fun g g' => ∀ u, u ∈ g → u ∉ g'
        exact clusterStage_pairwise _ _ _ hnd2

/-- C1, witness: one document with text and one without. -/
theorem C1_witness :
    (([("a", "x"), ("b", "")] : List (String × String)).map Prod.fst).Nodup ∧
    ((∀ u, (∃ g ∈ (testDedup.group_similar_articles [("a", "x"), ("b", "")]).groups, u ∈ g) ↔
        u ∈ (if (([("a", "x"), ("b", "")] : List (String × String)).filter
              fun p => p.2 != "").isEmpty
          then ([("a", "x"), ("b", "")] : List (String × String)).map Prod.fst
          else (([("a", "x"), ("b", "")] : List (String × String)).filter
              fun p => p.2 != "").map Prod.fst)) ∧
      ((testDedup.group_similar_articles [("a", "x"), ("b", "")]).groups).Pairwise
        fun g g' => ∀ u, u ∈ g → u ∉ g') :=
  ⟨by decide, C1_partition testDedup [("a", "x"), ("b", "")] (by decide)⟩

/-- The hybrid similarity matrix used for the C3 counterexample: similarity
`0.5` between the two documents. -/
def halfSim : Nat → Nat → ℚ := fun i j => if i = j then 1 else 1/2

/-- C3, counterexample: with `τ1 = 0.3 < τ2 = 0.8` and pair similarity `0.5`,
the two documents are grouped together at `τ1` but split at `τ2`: the
partition at the higher threshold splits a pair that the partition at the
lower threshold grouped, contradicting the claim as stated.  (The spec's own
parenthesis — "raising τ can only merge less or equal" — describes the actual
behaviour; the main sentence has the roles of `τ1` and `τ2` reversed.) -/
theorem C3_cex :
    ((3 : ℚ)/10) < 4/5 ∧
    (∃ g ∈ clusterStage halfSim (3/10) ["a", "b"], "a" ∈ g ∧ "b" ∈ g) ∧
    ¬ ∃ g ∈ clusterStage halfSim (4/5) ["a", "b"], "a" ∈ g ∧ "b" ∈ g :=
  of_decide_eq_true (by with_unfolding_all rfl)

/-- C3, amended: raising the threshold refines the partition — for
`τ1 < τ2` and all other inputs held fixed, the grouping at `τ1` never splits
a pair of documents that the grouping at `τ2` placed in the same group. -/
theorem C3_threshold_refines (hybrid : Nat → Nat → ℚ) (urls : List String) (τ1 τ2 : ℚ)
    (hτ : τ1 < τ2) (u v : String)
    (hg : ∃ g ∈ clusterStage hybrid τ2 urls, u ∈ g ∧ v ∈ g) :
    ∃ g ∈ clusterStage hybrid τ1 urls, u ∈ g ∧ v ∈ g := by
  simp only [clusterStage] at hg ⊢
  rw [sameGroup_iff] at hg ⊢
  set steps := linkage
    (fun i j => if i = j then 0 else min 2 (max 0 (1 - hybrid i j))) urls.length with hsteps
  obtain ⟨k, hku, hkv⟩ := hg
  rw [mem_mapRange_zip] at hku hkv
  obtain ⟨i, hki, hui⟩ := hku
  obtain ⟨j, hkj, huj⟩ := hkv
  have hpart : cutPart steps (1 - τ2) i = cutPart steps (1 - τ2) j := hki.trans hkj.symm
  have ht : (1 - τ2) ≤ (1 - τ1) := by linarith
  refine ⟨cutPart steps (1 - τ1) i,
    (mem_mapRange_zip urls _ _ u).mpr ⟨i, rfl, hui⟩,
    (mem_mapRange_zip urls _ _ v).mpr ⟨j, ?_, huj⟩⟩
  exact (cutPart_refines ht steps i j hpart).symm

/-- C3, witness: at `τ1 = 0.3 < τ2 = 0.4` the pair merged at `τ2` is still
merged at `τ1`. -/
theorem C3_witness :
    ((3 : ℚ)/10) < 2/5 ∧
    (∃ g ∈ clusterStage halfSim (2/5) ["a", "b"], "a" ∈ g ∧ "b" ∈ g) ∧
    (∃ g ∈ clusterStage halfSim (3/10) ["a", "b"], "a" ∈ g ∧ "b" ∈ g) :=
  ⟨of_decide_eq_true (by with_unfolding_all rfl),
    of_decide_eq_true (by with_unfolding_all rfl),
    C3_threshold_refines halfSim ["a", "b"] (3/10) (2/5)
      (of_decide_eq_true (by with_unfolding_all rfl)) "a" "b"
      (of_decide_eq_true (by with_unfolding_all rfl))⟩

end Noticias
